import Mathlib

/-!
Shallow embedding of `doto2pinguin.py` (a PyQt ping monitor, Python 2).

The embedded pieces are:
* `PingThread.run` (lines 76-95): platform-dependent probe invocation and the
  regex parse `re.match('.*time=([0-9]+)ms.*', stdout, re.DOTALL)`;
* `PingStatistics` and `PingStatistics.update` (lines 97-137), including an
  exact model of the Python float expression
  `int((float(lossCount) / float(len(pings)+lossCount)) * 100.0)`;
* the graph-buffer step of `QServerState.refresh` (lines 285-292) with the
  capacity `maxGraphPings()` as a parameter;
* the tick scheduling of `QServerState.refresh` (lines 273-292) as a step
  relation over events (timer tick / ping-thread termination);
* `DotoPinguin.checkboxStateChange` (lines 303-315) and
  `DotoPinguin.stopUpdate` (lines 317-326) over the `displayedServers`
  dictionary and the `serversPaused` flag.
-/

/-- A probe outcome as described by the data model: a non-negative latency in
milliseconds, or a loss.  `PingThread` encodes a loss as `time = -1`. -/
inductive ProbeOutcome where
  | latency (ms : Nat)
  | lost
deriving DecidableEq, Repr

/-- The integer `PingThread.time` value carried by an outcome: the parsed
latency for `latency ms`, and `-1` for `lost` (line 95). -/
def pingOf : ProbeOutcome → Int
  | .latency ms => (ms : Int)
  | .lost => -1

/-- State of `PingStatistics` (lines 110-116): `min`, `max`, `avg`,
`lossCount`, `lossPercent` and the retained latency history `_pings`.
All five public fields start at 0 and `_pings` starts empty. -/
structure PingStatistics where
  min : Int := 0
  max : Int := 0
  avg : Int := 0
  lossCount : Nat := 0
  lossPercent : Nat := 0
  pings : List Int := []
deriving DecidableEq, Repr

/-- The freshly constructed `PingStatistics()` object. -/
def initStats : PingStatistics := {}

/-- Bit length of a natural number, with explicit structural fuel so that the
kernel can evaluate it.  `bitlenGo fuel m` is the number of binary digits of
`m` provided `m < 2 ^ fuel`. -/
def bitlenGo : Nat → Nat → Nat
  | 0, _ => 0
  | fuel + 1, m => if m = 0 then 0 else bitlenGo fuel (m / 2) + 1

/-- Number of binary digits of `n` (0 for 0); fuel 4096 covers every number
that can arise from the statistics of any realizable probe sequence. -/
def bitlen (n : Nat) : Nat := bitlenGo 4096 n

/-- Round the rational `a / b` (with `b > 0`) to the nearest integer, ties to
even — the rounding used by IEEE-754 binary64 arithmetic. -/
def rne (a b : Nat) : Nat :=
  let q := a / b
  let r := a % b
  if b < 2 * r then q + 1
  else if 2 * r < b then q
  else if q % 2 = 0 then q else q + 1

/-- Exact model of the Python 2 expression
`int((float(lossCount) / float(total)) * 100.0)` from lines 136-137, for
`lossCount ≤ total` (which `update` guarantees, since `total` counts all
outcomes) and `total < 2^53` (so both `float(...)` conversions are exact).

Both binary64 operations round to nearest, ties to even:
* the quotient `lossCount/total` lies in `(0, 1]`, so its exponent is `-k`
  with `k ≥ 0` and its 53-bit significand is `m = rne (lossCount * 2^(52+k))
  total`, giving the double `m / 2^(52+k)`;
* the product with the exact double `100.0` is `p = 100 * m` rounded back to
  53 significant bits;
* `int(...)` truncates toward zero, which on a non-negative value is the
  floor, i.e. a right shift by the (non-negative) scale. -/
def pyLossPercent (lossCount total : Nat) : Nat :=
  if lossCount = 0 then 0
  else
    let k0 := bitlen total - bitlen lossCount
    let k := if total ≤ lossCount * 2 ^ k0 then k0 else k0 + 1
    let m := rne (lossCount * 2 ^ (52 + k)) total
    let p := 100 * m
    let bl := bitlen p
    if bl ≤ 53 then p / 2 ^ (52 + k)
    else rne p (2 ^ (bl - 53)) / 2 ^ (105 + k - bl)

/-- `PingStatistics.update(ping)` (lines 118-137), statement by statement:

* if `_pings` is non-empty and `ping >= 0`: `min`/`max` fold in `ping` and
  `avg` is recomputed as `sum(_pings) / len(_pings)` — Python 2 floor
  division over the history *before* the append below;
* if `_pings` is empty: `min = max = avg = ping` (for any sign of `ping`);
* then `ping` is appended to `_pings` when `ping >= 0`, otherwise
  `lossCount` is incremented;
* finally, when any outcome has been recorded, `lossPercent` is recomputed
  with float arithmetic (see `pyLossPercent`). -/
def PingStatistics.update (s : PingStatistics) (ping : Int) : PingStatistics :=
  let s1 :=
    if 0 < s.pings.length then
      if 0 ≤ ping then
        { s with min := Min.min s.min ping,
                 max := Max.max s.max ping,
                 avg := Int.fdiv s.pings.sum s.pings.length }
      else s
    else
      { s with min := ping, max := ping, avg := ping }
  let s2 :=
    if 0 ≤ ping then { s1 with pings := s1.pings ++ [ping] }
    else { s1 with lossCount := s1.lossCount + 1 }
  if 0 < s2.pings.length ∨ 0 < s2.lossCount then
    { s2 with lossPercent := pyLossPercent s2.lossCount (s2.pings.length + s2.lossCount) }
  else s2

/-- Feed one outcome to the statistics, as `refresh` does with
`self._pingStats.update(curPing)` (line 284). -/
def applyOutcome (s : PingStatistics) (o : ProbeOutcome) : PingStatistics :=
  s.update (pingOf o)

/-- The statistics after a whole outcome sequence, starting from a fresh
`PingStatistics()`. -/
def statsOf (l : List ProbeOutcome) : PingStatistics :=
  l.foldl applyOutcome initStats

/-- The latency values of an outcome sequence, in order. -/
def latencyValues (l : List ProbeOutcome) : List Int :=
  l.filterMap fun o => match o with
    | .latency ms => some (ms : Int)
    | .lost => none

/-- Value of a digit-run, as `int(matches.group(1))` computes it (base 10). -/
def digitsToNat (ds : List Char) : Nat :=
  ds.foldl (fun acc c => acc * 10 + (c.toNat - 48)) 0

/-- Whether the pattern `time=([0-9]+)ms` matches at the head of `cs`,
returning the captured number.  The digit group is the maximal digit run
(regex `[0-9]+` is greedy, and backtracking cannot help: shortening the run
would put a digit where the literal `m` must match). -/
def timeMatchAt : List Char → Option Nat
  | 't' :: 'i' :: 'm' :: 'e' :: '=' :: rest =>
    match rest.takeWhile Char.isDigit, rest.drop (rest.takeWhile Char.isDigit).length with
    | d :: ds, 'm' :: 's' :: _ => some (digitsToNat (d :: ds))
    | _, _ => none
  | _ => none

/-- The rightmost successful `time=([0-9]+)ms` match in the character list:
the leading greedy `.*` of `re.match('.*time=([0-9]+)ms.*', out, re.DOTALL)`
commits to the last position where the rest of the pattern matches, and with
`re.DOTALL` the dot crosses newlines, so every position is eligible. -/
def lastTimeMatch : List Char → Option Nat
  | [] => none
  | c :: rest =>
    match lastTimeMatch rest with
    | some v => some v
    | none => timeMatchAt (c :: rest)

/-- The parsing step of `PingThread.run` (lines 91-95): `self.time` becomes
the captured latency when the regex matches the probe output, and `-1`
("packet lost") otherwise. -/
def parsePingTime (stdout : String) : Int :=
  match lastTimeMatch stdout.toList with
  | some v => (v : Int)
  | none => -1

/-- `PingThread.run` (lines 76-95) as a function of the platform and of the
raw probe output the `ping` subprocess would produce.  On Windows the method
parses the output into `self.time`.  On any other platform line 84,
`startupinfo = subprocess.STARTUPINFO()`, raises `AttributeError` before the
probe is even issued, because the Python standard library defines
`subprocess.STARTUPINFO` only on Windows; the exception escapes `run`, so the
thread dies and `self.time` keeps its constructor value `0` (line 73). -/
def PingThread.run (isWindows : Bool) (stdout : String) : Except String Int :=
  if isWindows then Except.ok (parsePingTime stdout)
  else Except.error "AttributeError"

/-- The graph-buffer step of `QServerState.refresh` (lines 286-290): if the
buffer has reached the capacity `maxGraphPings()`, it is cleared, and then the
current ping is appended. -/
def refreshBuffer (cap : Nat) (buf : List Int) (curPing : Int) : List Int :=
  if cap ≤ buf.length then [curPing] else buf ++ [curPing]

/-- Scheduler state of one `QServerState` while its timer runs: whether the
current `self.pingThread` has terminated (`isAlive()` is false), the `time`
value it produced, how many OS ping threads are currently alive, how many
have been launched, and the owned statistics and graph buffer. -/
structure MonitorSched where
  curFinished : Bool
  pendingTime : Int
  aliveThreads : Nat
  launches : Nat
  stats : PingStatistics
  graphPings : List Int
deriving DecidableEq, Repr

/-- Events driving one monitor: the current ping thread terminates with a
parsed `time` value, or the 1000 ms `QTimer` fires `refresh`. -/
inductive SchedEvent where
  | finish (t : Int)
  | tick
deriving DecidableEq, Repr

/-- State right after `QServerState.__init__` (lines 159-175): one ping
thread has been launched by `startPingThread()` and is alive. -/
def initSched : MonitorSched :=
  { curFinished := false, pendingTime := 0, aliveThreads := 1, launches := 1,
    stats := initStats, graphPings := [] }

/-- One scheduler step (lines 273-292).  A `finish t` event marks the current
thread as terminated with value `t`.  A `tick` runs `refresh`: if the thread
`isAlive()`, refresh returns at line 279 and the tick is skipped; otherwise it
joins the thread, feeds `time` to the statistics and the graph buffer, and
launches a new ping thread (`startPingThread`, line 292). -/
def schedStep (cap : Nat) (m : MonitorSched) : SchedEvent → MonitorSched
  | .finish t =>
    if m.curFinished then m
    else { m with curFinished := true, pendingTime := t,
                  aliveThreads := m.aliveThreads - 1 }
  | .tick =>
    if m.curFinished then
      { m with stats := m.stats.update m.pendingTime,
               graphPings := refreshBuffer cap m.graphPings m.pendingTime,
               curFinished := false,
               aliveThreads := m.aliveThreads + 1,
               launches := m.launches + 1 }
    else m

/-- Run the scheduler from construction through a sequence of events. -/
def runSched (cap : Nat) (evs : List SchedEvent) : MonitorSched :=
  evs.foldl (schedStep cap) initSched

/-- The `DotoPinguin` state the registry claims are about: the
`displayedServers` dictionary — modelled as an association list from server
index to the monitor run state (`true` = timer running) — and the
`serversPaused` flag (lines 300-301). -/
structure AppState where
  displayedServers : List (Nat × Bool)
  serversPaused : Bool
deriving DecidableEq, Repr

/-- `DotoPinguin` class state at startup: no displayed servers, not paused. -/
def initApp : AppState := { displayedServers := [], serversPaused := false }

/-- The keys of `displayedServers`. -/
def appKeys (s : AppState) : List Nat := s.displayedServers.map Prod.fst

/-- `DotoPinguin.checkboxStateChange` (lines 303-315), restricted to its
effect on `displayedServers`: if the server index is already present its
monitor is removed (`remove()` + `pop`), otherwise a fresh running
`QServerState` is stored under the index.  Button/geometry updates are
display-only and not modelled. -/
def DotoPinguin.checkboxStateChange (s : AppState) (serverIdx : Nat) : AppState :=
  if serverIdx ∈ appKeys s then
    { s with displayedServers := s.displayedServers.filter fun kv => kv.1 ≠ serverIdx }
  else
    { s with displayedServers := s.displayedServers ++ [(serverIdx, true)] }

/-- Loop body sequence of `DotoPinguin.stopUpdate` (lines 317-326): iterate
over `displayedServers`; for each entry, if `serversPaused` currently holds,
`resume()` the monitor and clear the flag, otherwise `stop()` it and set the
flag — the flag is re-read and rewritten *inside* the loop.  Returns the
final flag and the updated monitors in iteration order. -/
def stopUpdateGo (paused : Bool) : List (Nat × Bool) → Bool × List (Nat × Bool)
  | [] => (paused, [])
  | kv :: rest =>
    if paused then
      let r := stopUpdateGo false rest
      (r.1, (kv.1, true) :: r.2)
    else
      let r := stopUpdateGo true rest
      (r.1, (kv.1, false) :: r.2)

/-- `DotoPinguin.stopUpdate` on the modelled state. -/
def DotoPinguin.stopUpdate (s : AppState) : AppState :=
  let r := stopUpdateGo s.serversPaused s.displayedServers
  { displayedServers := r.2, serversPaused := r.1 }

/-- Case lemma for `update`: a latency recorded when the history is
non-empty folds into `min`/`max`, recomputes `avg` from the history *before*
the append, and appends the latency. -/
theorem PingStatistics.update_lat_cons (s : PingStatistics) (p : Int)
    (hne : s.pings ≠ []) (hp : 0 ≤ p) :
    s.update p = { s with
      min := Min.min s.min p,
      max := Max.max s.max p,
      avg := Int.fdiv s.pings.sum s.pings.length,
      pings := s.pings ++ [p],
      lossPercent := pyLossPercent s.lossCount (s.pings.length + 1 + s.lossCount) } := by
  have hl : 0 < s.pings.length := List.length_pos.mpr hne
  unfold PingStatistics.update
  simp [hl, hp]

/-- Case lemma for `update`: a latency recorded on an empty history sets
`min = max = avg` to it and starts the history. -/
theorem PingStatistics.update_lat_nil (s : PingStatistics) (p : Int)
    (hnil : s.pings = []) (hp : 0 ≤ p) :
    s.update p = { s with
      min := p, max := p, avg := p,
      pings := [p],
      lossPercent := pyLossPercent s.lossCount (1 + s.lossCount) } := by
  unfold PingStatistics.update
  simp [hnil, hp]

/-- Case lemma for `update`: a loss recorded when the history is non-empty
only counts the loss and refreshes `lossPercent`. -/
theorem PingStatistics.update_lost_cons (s : PingStatistics) (p : Int)
    (hne : s.pings ≠ []) (hp : p < 0) :
    s.update p = { s with
      lossCount := s.lossCount + 1,
      lossPercent := pyLossPercent (s.lossCount + 1) (s.pings.length + (s.lossCount + 1)) } := by
  have hl : 0 < s.pings.length := List.length_pos.mpr hne
  unfold PingStatistics.update
  simp [hl, not_le.mpr hp]

/-- Case lemma for `update`: a loss recorded on an empty history takes the
first-outcome branch and sets `min = max = avg` to the loss value. -/
theorem PingStatistics.update_lost_nil (s : PingStatistics) (p : Int)
    (hnil : s.pings = []) (hp : p < 0) :
    s.update p = { s with
      min := p, max := p, avg := p,
      lossCount := s.lossCount + 1,
      lossPercent := pyLossPercent (s.lossCount + 1) (s.lossCount + 1) } := by
  unfold PingStatistics.update
  simp [hnil, not_le.mpr hp]

/-- The latency history after an update: extended by the ping exactly when
the ping is non-negative. -/
theorem PingStatistics.update_pings (s : PingStatistics) (p : Int) :
    (s.update p).pings = if 0 ≤ p then s.pings ++ [p] else s.pings := by
  by_cases hnil : s.pings = [] <;> by_cases hp : 0 ≤ p
  · rw [s.update_lat_nil p hnil hp]; simp [hnil, hp]
  · rw [s.update_lost_nil p hnil (not_le.mp hp)]; simp [hnil, hp]
  · rw [s.update_lat_cons p hnil hp]; simp [hp]
  · rw [s.update_lost_cons p hnil (not_le.mp hp)]; simp [hp]

/-- Folding outcomes over any starting state extends the latency history by
exactly the latency values of the sequence, in order. -/
theorem foldl_applyOutcome_pings (l : List ProbeOutcome) :
    ∀ s : PingStatistics, (l.foldl applyOutcome s).pings = s.pings ++ latencyValues l := by
  induction l with
  | nil => intro s; simp [latencyValues]
  | cons o t ih =>
    intro s
    rw [List.foldl_cons, ih]
    cases o with
    | latency ms =>
      have : (applyOutcome s (.latency ms)).pings = s.pings ++ [(ms : Int)] := by
        rw [applyOutcome, PingStatistics.update_pings]
        simp [pingOf]
      rw [this]
      simp [latencyValues, List.filterMap_cons]
    | lost =>
      have : (applyOutcome s .lost).pings = s.pings := by
        rw [applyOutcome, PingStatistics.update_pings]
        simp [pingOf]
      rw [this]
      simp [latencyValues, List.filterMap_cons]

/-- The latency history of the statistics of a sequence is exactly the
sequence's latency values. -/
theorem statsOf_pings (l : List ProbeOutcome) :
    (statsOf l).pings = latencyValues l := by
  have := foldl_applyOutcome_pings l initStats
  simpa [statsOf, initStats] using this

/-- A sequence containing a latency outcome has a non-empty latency-value
list. -/
theorem latencyValues_ne_nil {l : List ProbeOutcome}
    (h : ∃ n, ProbeOutcome.latency n ∈ l) : latencyValues l ≠ [] := by
  obtain ⟨n, hn⟩ := h
  intro hnil
  rw [latencyValues, List.filterMap_eq_nil_iff] at hnil
  simpa using hnil _ hn

/-- Invariant carried by every reachable `PingStatistics` state: every
recorded latency is non-negative and lies between `min` and `max`, and once
a latency has been recorded, `min ≤ avg ≤ max`. -/
def StatsInv (s : PingStatistics) : Prop :=
  (∀ x ∈ s.pings, 0 ≤ x ∧ s.min ≤ x ∧ x ≤ s.max) ∧
  (s.pings ≠ [] → s.min ≤ s.avg ∧ s.avg ≤ s.max)

/-- `update` preserves the statistics invariant, for any ping value. -/
theorem statsInv_update (s : PingStatistics) (p : Int) (h : StatsInv s) :
    StatsInv (s.update p) := by
  obtain ⟨h1, h2⟩ := h
  by_cases hnil : s.pings = []
  · by_cases hp : 0 ≤ p
    · rw [s.update_lat_nil p hnil hp]
      constructor
      · intro x hx
        simp only [hnil] at hx
        simp only [List.mem_singleton] at hx
        subst hx
        exact ⟨hp, le_refl _, le_refl _⟩
      · intro _
        exact ⟨le_refl _, le_refl _⟩
    · rw [s.update_lost_nil p hnil (not_le.mp hp)]
      constructor
      · intro x hx
        rw [hnil] at hx
        simp at hx
      · intro hco
        rw [hnil] at hco
        simp at hco
  · by_cases hp : 0 ≤ p
    · rw [s.update_lat_cons p hnil hp]
      have hlen : 0 < s.pings.length := List.length_pos.mpr hnil
      have hlen' : (0 : Int) < (s.pings.length : Int) := by exact_mod_cast hlen
      constructor
      · intro x hx
        rcases List.mem_append.mp hx with hx | hx
        · obtain ⟨hx0, hxl, hxu⟩ := h1 x hx
          exact ⟨hx0, le_trans (min_le_left _ _) hxl, le_trans hxu (le_max_left _ _)⟩
        · rw [List.mem_singleton] at hx
          subst hx
          exact ⟨hp, min_le_right _ _, le_max_right _ _⟩
      · intro _
        have hsum_lo : (s.pings.length : Int) * s.min ≤ s.pings.sum := by
          have := List.card_nsmul_le_sum s.pings s.min fun x hx => (h1 x hx).2.1
          simpa [nsmul_eq_mul] using this
        have hsum_hi : s.pings.sum ≤ (s.pings.length : Int) * s.max := by
          have := List.sum_le_card_nsmul s.pings s.max fun x hx => (h1 x hx).2.2
          simpa [nsmul_eq_mul] using this
        have hfd : Int.fdiv s.pings.sum (s.pings.length : Int)
            = s.pings.sum / (s.pings.length : Int) :=
          Int.fdiv_eq_ediv _ (le_of_lt hlen')
        constructor
        · show Min.min s.min p ≤ Int.fdiv s.pings.sum (s.pings.length : Int)
          rw [hfd]
          refine le_trans (min_le_left _ _) ?_
          rw [Int.le_ediv_iff_mul_le hlen']
          calc s.min * (s.pings.length : Int)
              = (s.pings.length : Int) * s.min := mul_comm _ _
            _ ≤ s.pings.sum := hsum_lo
        · show Int.fdiv s.pings.sum (s.pings.length : Int) ≤ Max.max s.max p
          rw [hfd]
          refine le_trans ?_ (le_max_left _ _)
          have hlt : s.pings.sum / (s.pings.length : Int) < s.max + 1 := by
            rw [Int.ediv_lt_iff_lt_mul hlen']
            calc s.pings.sum ≤ (s.pings.length : Int) * s.max := hsum_hi
              _ = s.max * (s.pings.length : Int) := mul_comm _ _
              _ < (s.max + 1) * (s.pings.length : Int) := by
                  have := mul_lt_mul_of_pos_right (lt_add_one s.max) hlen'
                  exact this
          exact Int.lt_add_one_iff.mp hlt
    · rw [s.update_lost_cons p hnil (not_le.mp hp)]
      exact ⟨h1, fun _ => h2 hnil⟩

/-- Folding any outcome sequence preserves the statistics invariant. -/
theorem statsInv_foldl (l : List ProbeOutcome) :
    ∀ s, StatsInv s → StatsInv (l.foldl applyOutcome s) := by
  induction l with
  | nil => intro s h; exact h
  | cons o t ih =>
    intro s h
    rw [List.foldl_cons]
    exact ih _ (statsInv_update s (pingOf o) h)

/-- The fresh statistics satisfy the invariant (its history is empty). -/
theorem statsInv_init : StatsInv initStats := by
  constructor
  · intro x hx
    simp [initStats] at hx
  · intro h
    simp [initStats] at h

/-- Claim C6 (confirmed): for every sequence of update calls, at every point
where at least one Latency outcome has been recorded, `min ≤ avg ≤ max`. -/
theorem claim_C6 (l : List ProbeOutcome) (h : ∃ n, ProbeOutcome.latency n ∈ l) :
    (statsOf l).min ≤ (statsOf l).avg ∧ (statsOf l).avg ≤ (statsOf l).max := by
  have hinv : StatsInv (statsOf l) := statsInv_foldl l initStats statsInv_init
  have hne : (statsOf l).pings ≠ [] := by
    rw [statsOf_pings]
    exact latencyValues_ne_nil h
  exact hinv.2 hne

/-- Witness for C6 at the concrete sequence `[Latency 5, Lost, Latency 9]`. -/
theorem claim_C6_witness :
    (∃ n, ProbeOutcome.latency n ∈
        [ProbeOutcome.latency 5, ProbeOutcome.lost, ProbeOutcome.latency 9]) ∧
    ((statsOf [ProbeOutcome.latency 5, ProbeOutcome.lost, ProbeOutcome.latency 9]).min ≤
        (statsOf [ProbeOutcome.latency 5, ProbeOutcome.lost, ProbeOutcome.latency 9]).avg ∧
      (statsOf [ProbeOutcome.latency 5, ProbeOutcome.lost, ProbeOutcome.latency 9]).avg ≤
        (statsOf [ProbeOutcome.latency 5, ProbeOutcome.lost, ProbeOutcome.latency 9]).max) :=
  ⟨⟨5, by decide⟩, claim_C6 _ ⟨5, by decide⟩⟩

/-- Counterexample to claim C1 as stated: after `[Latency 50, Latency 70]`
the recorded `avg` is 50, not the exact mean 60 of all latencies supplied so
far; and after `[Latency 50, Latency 51, Latency 60]` twice the recorded
`avg` is 100, so `avg` is not even the exact mean 50.5 of the latencies
recorded before the last update — it is its floor. -/
theorem claim_C1_counterexample :
    (statsOf [ProbeOutcome.latency 50, ProbeOutcome.latency 70]).avg ≠ 60 ∧
    2 * (statsOf [ProbeOutcome.latency 50, ProbeOutcome.latency 51,
        ProbeOutcome.latency 60]).avg ≠ 101 := by
  decide

/-- Claim C1 (amended): after a Latency outcome that is not the first
recorded, `min` becomes `min(min, value)` and `max` becomes
`max(max, value)`, while `avg` becomes the floor (Python 2 integer division)
of the mean of the latency values recorded strictly before this update —
the value just recorded is excluded. -/
theorem claim_C1 (pre : List ProbeOutcome) (v : Nat)
    (h : ∃ n, ProbeOutcome.latency n ∈ pre) :
    (applyOutcome (statsOf pre) (.latency v)).min
        = Min.min (statsOf pre).min (v : Int) ∧
    (applyOutcome (statsOf pre) (.latency v)).max
        = Max.max (statsOf pre).max (v : Int) ∧
    (applyOutcome (statsOf pre) (.latency v)).avg
        = Int.fdiv (latencyValues pre).sum ((latencyValues pre).length : Int) := by
  have hne : (statsOf pre).pings ≠ [] := by
    rw [statsOf_pings]
    exact latencyValues_ne_nil h
  rw [applyOutcome, show pingOf (.latency v) = (v : Int) from rfl,
    PingStatistics.update_lat_cons _ _ hne (Int.natCast_nonneg v)]
  refine ⟨rfl, rfl, ?_⟩
  rw [show ({ (statsOf pre) with
      min := Min.min (statsOf pre).min (v : Int),
      max := Max.max (statsOf pre).max (v : Int),
      avg := Int.fdiv (statsOf pre).pings.sum ((statsOf pre).pings.length : Int),
      pings := (statsOf pre).pings ++ [(v : Int)],
      lossPercent := pyLossPercent (statsOf pre).lossCount
        ((statsOf pre).pings.length + 1 + (statsOf pre).lossCount) } : PingStatistics).avg
      = Int.fdiv (statsOf pre).pings.sum ((statsOf pre).pings.length : Int) from rfl]
  rw [statsOf_pings]

/-- Witness for the amended C1 at `pre = [Latency 50]`, `v = 70`. -/
theorem claim_C1_witness :
    (∃ n, ProbeOutcome.latency n ∈ [ProbeOutcome.latency 50]) ∧
    ((applyOutcome (statsOf [ProbeOutcome.latency 50]) (.latency 70)).min
        = Min.min (statsOf [ProbeOutcome.latency 50]).min 70 ∧
      (applyOutcome (statsOf [ProbeOutcome.latency 50]) (.latency 70)).max
        = Max.max (statsOf [ProbeOutcome.latency 50]).max 70 ∧
      (applyOutcome (statsOf [ProbeOutcome.latency 50]) (.latency 70)).avg
        = Int.fdiv (latencyValues [ProbeOutcome.latency 50]).sum
            ((latencyValues [ProbeOutcome.latency 50]).length : Int)) :=
  ⟨⟨50, by decide⟩, claim_C1 [ProbeOutcome.latency 50] 70 ⟨50, by decide⟩⟩

/-- Counterexample to claim C2 as stated: in the empty initial state a Lost
outcome does change `min` (and `max`, `avg`) — from 0 to the sentinel -1. -/
theorem claim_C2_counterexample :
    (applyOutcome initStats ProbeOutcome.lost).min = -1 ∧ initStats.min = 0 := by
  decide

/-- Claim C2 (amended): a Lost outcome increments `lossCount` by one, and
leaves `min`, `max`, `avg` unchanged whenever at least one Latency outcome
has been recorded; when none has been recorded it sets all three to the loss
sentinel `-1`. -/
theorem claim_C2 (pre : List ProbeOutcome) :
    (applyOutcome (statsOf pre) .lost).lossCount = (statsOf pre).lossCount + 1 ∧
    (applyOutcome (statsOf pre) .lost).min
        = (if latencyValues pre = [] then -1 else (statsOf pre).min) ∧
    (applyOutcome (statsOf pre) .lost).max
        = (if latencyValues pre = [] then -1 else (statsOf pre).max) ∧
    (applyOutcome (statsOf pre) .lost).avg
        = (if latencyValues pre = [] then -1 else (statsOf pre).avg) := by
  have hp : (statsOf pre).pings = latencyValues pre := statsOf_pings pre
  by_cases hnil : latencyValues pre = []
  · rw [applyOutcome, show pingOf .lost = (-1 : Int) from rfl,
      PingStatistics.update_lost_nil _ _ (hp.trans hnil) (by norm_num)]
    simp [hnil]
  · rw [applyOutcome, show pingOf .lost = (-1 : Int) from rfl,
      PingStatistics.update_lost_cons _ _ (by rw [hp]; exact hnil) (by norm_num)]
    simp [hnil]

/-- Once a latency has been recorded, folding any further outcomes can only
decrease `min` and increase `max`, and the history stays non-empty. -/
theorem foldl_minmax_mono (l : List ProbeOutcome) :
    ∀ s : PingStatistics, s.pings ≠ [] →
      (l.foldl applyOutcome s).min ≤ s.min ∧
      s.max ≤ (l.foldl applyOutcome s).max ∧
      (l.foldl applyOutcome s).pings ≠ [] := by
  induction l with
  | nil => intro s h; exact ⟨le_refl _, le_refl _, h⟩
  | cons o t ih =>
    intro s h
    rw [List.foldl_cons]
    have hstep : (applyOutcome s o).min ≤ s.min ∧ s.max ≤ (applyOutcome s o).max ∧
        (applyOutcome s o).pings ≠ [] := by
      cases o with
      | latency ms =>
        rw [applyOutcome, show pingOf (.latency ms) = (ms : Int) from rfl,
          PingStatistics.update_lat_cons _ _ h (Int.natCast_nonneg ms)]
        refine ⟨min_le_left _ _, le_max_left _ _, ?_⟩
        simp
      | lost =>
        rw [applyOutcome, show pingOf .lost = (-1 : Int) from rfl,
          PingStatistics.update_lost_cons _ _ h (by norm_num)]
        exact ⟨le_refl _, le_refl _, h⟩
    obtain ⟨h1, h2, h3⟩ := hstep
    obtain ⟨g1, g2, g3⟩ := ih (applyOutcome s o) h3
    exact ⟨le_trans g1 h1, le_trans h2 g2, g3⟩

/-- Claim C10 (confirmed): once the first Latency outcome has been recorded,
`min` is non-increasing and `max` is non-decreasing across every further mix
of Latency and Lost outcomes. -/
theorem claim_C10 (pre suf : List ProbeOutcome)
    (h : ∃ n, ProbeOutcome.latency n ∈ pre) :
    (statsOf (pre ++ suf)).min ≤ (statsOf pre).min ∧
    (statsOf pre).max ≤ (statsOf (pre ++ suf)).max := by
  have hne : (statsOf pre).pings ≠ [] := by
    rw [statsOf_pings]
    exact latencyValues_ne_nil h
  have hmono := foldl_minmax_mono suf (statsOf pre) hne
  have happ : statsOf (pre ++ suf) = suf.foldl applyOutcome (statsOf pre) := by
    simp [statsOf, List.foldl_append]
  rw [happ]
  exact ⟨hmono.1, hmono.2.1⟩

/-- Witness for C10 at `pre = [Latency 8]`, `suf = [Lost, Latency 3]`. -/
theorem claim_C10_witness :
    (∃ n, ProbeOutcome.latency n ∈ [ProbeOutcome.latency 8]) ∧
    ((statsOf ([ProbeOutcome.latency 8] ++ [ProbeOutcome.lost, ProbeOutcome.latency 3])).min ≤
        (statsOf [ProbeOutcome.latency 8]).min ∧
      (statsOf [ProbeOutcome.latency 8]).max ≤
        (statsOf ([ProbeOutcome.latency 8] ++ [ProbeOutcome.lost, ProbeOutcome.latency 3])).max) :=
  ⟨⟨8, by decide⟩,
    claim_C10 [ProbeOutcome.latency 8] [ProbeOutcome.lost, ProbeOutcome.latency 3] ⟨8, by decide⟩⟩

/-- Claim C3 (code bug): on any non-Windows platform `PingThread.run` raises
`AttributeError` at `subprocess.STARTUPINFO()` instead of collapsing the
failure to Lost; the thread dies with `time` still `0`, and `refresh` then
feeds `0` to the statistics, which records a 0 ms latency, not a loss.  On
Windows the parse itself is total: a parseable `time=<n>ms` gives the
latency and anything else gives the loss value `-1`. -/
theorem claim_C3_code_bug :
    PingThread.run false "64 bytes from 1.2.3.4: icmp_seq=1 ttl=55 time=23.4 ms"
      = Except.error "AttributeError" ∧
    PingThread.run true "Reply from 1.2.3.4: bytes=32 time=48ms TTL=55" = Except.ok 48 ∧
    PingThread.run true "Request timed out." = Except.ok (-1) ∧
    (PingStatistics.update initStats 0).lossCount = 0 ∧
    (PingStatistics.update initStats 0).pings = [0] :=
  ⟨rfl, rfl, rfl, by decide, by decide⟩

/-- Claim C4 (code bug): because `stopUpdate` rewrites `serversPaused`
inside its loop, one pause-toggle invocation with two running monitors stops
the first monitor and "resumes" the second, and leaves the flag false; with
a single monitor the intended all-stop transition does happen. -/
theorem claim_C4_code_bug :
    DotoPinguin.stopUpdate
        { displayedServers := [(0, true), (1, true)], serversPaused := false }
      = { displayedServers := [(0, false), (1, true)], serversPaused := false } ∧
    DotoPinguin.stopUpdate
        { displayedServers := [(0, true)], serversPaused := false }
      = { displayedServers := [(0, false)], serversPaused := true } := by
  decide

/-- Counterexample to claim C5 as stated: selecting the same server twice
does not fail and does not leave the existing monitor in place — the second
invocation of the checkbox handler removes the monitor. -/
theorem claim_C5_counterexample :
    (DotoPinguin.checkboxStateChange (DotoPinguin.checkboxStateChange initApp 3) 3).displayedServers
      = [] ∧
    (DotoPinguin.checkboxStateChange initApp 3).displayedServers = [(3, true)] := by
  decide

/-- Claim C5 (amended): the registry operation is a toggle, not a failing
`add`: invoking it for an already-tracked host removes that host's monitor
(no `AlreadyMonitored` error exists), invoking it for an untracked host adds
a monitor for it, and the tracked keys stay duplicate-free either way. -/
theorem claim_C5 (s : AppState) (idx : Nat) (hnd : (appKeys s).Nodup) :
    (idx ∈ appKeys s → idx ∉ appKeys (DotoPinguin.checkboxStateChange s idx)) ∧
    (idx ∉ appKeys s →
      appKeys (DotoPinguin.checkboxStateChange s idx) = appKeys s ++ [idx]) ∧
    (appKeys (DotoPinguin.checkboxStateChange s idx)).Nodup := by
  refine ⟨?_, ?_, ?_⟩
  · intro hin
    rw [DotoPinguin.checkboxStateChange, if_pos hin]
    intro hmem
    simp only [appKeys, List.mem_map, List.mem_filter] at hmem
    obtain ⟨kv, ⟨_, hkv⟩, hfst⟩ := hmem
    rw [hfst] at hkv
    simp at hkv
  · intro hout
    rw [DotoPinguin.checkboxStateChange, if_neg hout]
    simp [appKeys]
  · by_cases hin : idx ∈ appKeys s
    · rw [DotoPinguin.checkboxStateChange, if_pos hin]
      have hsub : ((s.displayedServers.filter fun kv => kv.1 ≠ idx).map Prod.fst).Sublist
          (s.displayedServers.map Prod.fst) :=
        (List.filter_sublist _).map Prod.fst
      exact hnd.sublist hsub
    · rw [DotoPinguin.checkboxStateChange, if_neg hin]
      have : appKeys { s with displayedServers := s.displayedServers ++ [(idx, true)] }
          = appKeys s ++ [idx] := by
        simp [appKeys]
      rw [this, List.nodup_append]
      refine ⟨hnd, List.nodup_singleton idx, ?_⟩
      intro a ha hb
      rw [List.mem_singleton] at hb
      subst hb
      exact hin ha

/-- Witness for the amended C5 at a state tracking exactly server 3. -/
theorem claim_C5_witness :
    (appKeys { displayedServers := [(3, true)], serversPaused := false }).Nodup ∧
    ((3 ∈ appKeys { displayedServers := [(3, true)], serversPaused := false } →
        3 ∉ appKeys (DotoPinguin.checkboxStateChange
          { displayedServers := [(3, true)], serversPaused := false } 3)) ∧
      (3 ∉ appKeys { displayedServers := [(3, true)], serversPaused := false } →
        appKeys (DotoPinguin.checkboxStateChange
            { displayedServers := [(3, true)], serversPaused := false } 3)
          = appKeys { displayedServers := [(3, true)], serversPaused := false } ++ [3]) ∧
      (appKeys (DotoPinguin.checkboxStateChange
          { displayedServers := [(3, true)], serversPaused := false } 3)).Nodup) :=
  ⟨by decide,
    claim_C5 { displayedServers := [(3, true)], serversPaused := false } 3 (by decide)⟩

set_option maxRecDepth 8000 in
/-- Claim C7 (code bug): after 21 latencies and 29 losses the code's
float-computed `lossPercent` is 57, while `floor(100*L/N) = floor(2900/50)`
is 58 — `int((float(29)/float(50))*100.0)` evaluates `0.58 * 100` to
`57.99999999999999289`, one ulp below 58. -/
theorem claim_C7_code_bug :
    (statsOf (List.replicate 21 (ProbeOutcome.latency 30)
        ++ List.replicate 29 ProbeOutcome.lost)).lossCount = 29 ∧
    (statsOf (List.replicate 21 (ProbeOutcome.latency 30)
        ++ List.replicate 29 ProbeOutcome.lost)).pings.length
      + (statsOf (List.replicate 21 (ProbeOutcome.latency 30)
        ++ List.replicate 29 ProbeOutcome.lost)).lossCount = 50 ∧
    (statsOf (List.replicate 21 (ProbeOutcome.latency 30)
        ++ List.replicate 29 ProbeOutcome.lost)).lossPercent = 57 ∧
    (100 * 29) / 50 = 58 := by
  decide

/-- The buffer step never grows a buffer that respects the capacity past the
capacity. -/
theorem foldl_refreshBuffer_length_le (cap : Nat) (hc : 0 < cap) (xs : List Int) :
    ∀ buf : List Int, buf.length ≤ cap → (xs.foldl (refreshBuffer cap) buf).length ≤ cap := by
  induction xs with
  | nil => intro buf h; exact h
  | cons x t ih =>
    intro buf h
    rw [List.foldl_cons]
    apply ih
    rw [refreshBuffer]
    split
    · simpa using hc
    · next hlt =>
      rw [not_le] at hlt
      simpa using hlt

/-- As long as the capacity is not yet reached, the buffer step only
appends. -/
theorem foldl_refreshBuffer_append (cap : Nat) (ys : List Int) :
    ∀ buf : List Int, buf.length + ys.length ≤ cap →
      ys.foldl (refreshBuffer cap) buf = buf ++ ys := by
  induction ys with
  | nil => intro buf _; simp
  | cons y t ih =>
    intro buf h
    rw [List.length_cons] at h
    rw [List.foldl_cons, refreshBuffer, if_neg (by omega)]
    rw [ih (buf ++ [y]) (by simp; omega)]
    simp

/-- Claim C8 (confirmed): with a positive capacity the graph buffer never
holds more than `cap` elements, and the append following `cap` appends
clears first, so the buffer is exactly the newest element. -/
theorem claim_C8 (cap : Nat) (hc : 0 < cap) (xs : List Int) :
    (xs.foldl (refreshBuffer cap) []).length ≤ cap ∧
    (∀ (ys : List Int) (x : Int), ys.length = cap →
      (ys ++ [x]).foldl (refreshBuffer cap) [] = [x]) := by
  constructor
  · exact foldl_refreshBuffer_length_le cap hc xs [] (by simp)
  · intro ys x hy
    rw [List.foldl_append,
      foldl_refreshBuffer_append cap ys [] (by simp [hy])]
    simp [refreshBuffer, hy]

/-- Witness for C8 at capacity 2 with appends `[1, 2, 3]` and the
`(cap+1)`-th-append scenario `[5, 6] ++ [7]`. -/
theorem claim_C8_witness :
    0 < 2 ∧
    ((([1, 2, 3] : List Int).foldl (refreshBuffer 2) []).length ≤ 2 ∧
      (∀ (ys : List Int) (x : Int), ys.length = 2 →
        (ys ++ [x]).foldl (refreshBuffer 2) [] = [x])) :=
  ⟨by decide, claim_C8 2 (by decide) [1, 2, 3]⟩

/-- In every reachable scheduler state the number of alive ping threads is 0
when the current thread has terminated and 1 when it is still running. -/
theorem runSched_alive (cap : Nat) (evs : List SchedEvent) :
    ∀ m : MonitorSched,
      m.aliveThreads = (if m.curFinished then 0 else 1) →
      (evs.foldl (schedStep cap) m).aliveThreads
        = (if (evs.foldl (schedStep cap) m).curFinished then 0 else 1) := by
  induction evs with
  | nil => intro m h; exact h
  | cons e t ih =>
    intro m h
    rw [List.foldl_cons]
    apply ih
    cases e with
    | finish tv =>
      cases hb : m.curFinished <;> simp [schedStep, hb] at h ⊢ <;> omega
    | tick =>
      cases hb : m.curFinished <;> simp [schedStep, hb] at h ⊢ <;> omega

/-- Claim C9 (confirmed): along every event sequence from construction the
monitor has at most one probe in flight, and a timer tick that arrives while
the current probe is still running changes nothing — in particular it
launches no second probe. -/
theorem claim_C9 (cap : Nat) (evs : List SchedEvent) :
    (runSched cap evs).aliveThreads ≤ 1 ∧
    (¬(runSched cap evs).curFinished →
      schedStep cap (runSched cap evs) SchedEvent.tick = runSched cap evs) := by
  constructor
  · have h := runSched_alive cap evs initSched (by rfl)
    have hr : runSched cap evs = evs.foldl (schedStep cap) initSched := rfl
    rw [hr]
    split at h <;> omega
  · intro h
    simp [schedStep, h]

/-- Witness for C9: right after construction the probe is in flight, and a
tick is skipped. -/
theorem claim_C9_witness :
    ¬(runSched 40 []).curFinished ∧
    ((runSched 40 []).aliveThreads ≤ 1 ∧
      (¬(runSched 40 []).curFinished →
        schedStep 40 (runSched 40 []) SchedEvent.tick = runSched 40 [])) :=
  ⟨by decide, claim_C9 40 []⟩
